import Mathlib

/-!
# Verification of `PluginRemoveService` (meltano/core/plugin_remove_service.py)

Shallow embedding of the plugin-removal orchestration layer.

The source defines a `PluginRemoveService` with two operations:

* `remove_plugin(plugin)` constructs four removal managers in the fixed
  order (DbRemoveManager, MeltanoYmlRemoveManager, InstallationRemoveManager,
  LockedDefinitionRemoveManager), calls `remove()` on each in that order,
  and returns the tuple of managers.
* `remove_plugins(plugins, plugin_status_cb, removal_manager_status_cb)`
  iterates over the plugins, invokes the status callback per plugin,
  delegates to `remove_plugin`, invokes the manager-status callback per
  manager while folding a `any_not_removed` flag, decrements a running
  `removed_plugins` counter (initialised to `len(plugins)`) whenever the
  flag is set, and finally returns `(removed_plugins, num_plugins)`.

The concrete removal managers live outside the excerpt; the embedding
abstracts each manager's `remove()` call as an environment
`env : P → ManagerKind → Except ε Bool` giving, per plugin and backend,
either a raised fault (`Except.error`) or the final `plugin_removed` flag
(`Except.ok b`).  Callbacks are modelled as state transformers on an
arbitrary callback-state type `σ` (covering any callback that returns
normally), and every externally visible action is recorded in an event
trace so that call ordering can be stated and proved.
-/

deriving instance DecidableEq for Except

/-- The four backend kinds, one per removal-manager class in the source,
listed in the construction order used by `remove_plugin`. -/
inductive ManagerKind where
  | db
  | meltanoYml
  | installation
  | lockedDefinition
deriving DecidableEq, Repr

/-- The fixed backend order used by `remove_plugin`:
`DbRemoveManager`, `MeltanoYmlRemoveManager`, `InstallationRemoveManager`,
`LockedDefinitionRemoveManager`. -/
def managerOrder : List ManagerKind :=
  [ManagerKind.db, ManagerKind.meltanoYml, ManagerKind.installation,
    ManagerKind.lockedDefinition]

/-- A removal manager after its `remove()` call: the backend kind, the
plugin it was constructed for, and its final `plugin_removed` flag. -/
structure PluginLocationRemoveManager (P : Type) where
  kind : ManagerKind
  plugin : P
  plugin_removed : Bool
deriving DecidableEq, Repr

/-- Externally visible events of a run, in emission order:
a `remove()` invocation on a manager, a `plugin_status_cb` invocation,
or a `removal_manager_status_cb` invocation. -/
inductive Event (P : Type) where
  | removeCall (plugin : P) (kind : ManagerKind)
  | pluginStatusCb (plugin : P)
  | removalManagerStatusCb (manager : PluginLocationRemoveManager P)
deriving DecidableEq, Repr

/-- The plugin an event concerns. -/
def Event.pluginOf {P : Type} : Event P → P
  | Event.removeCall q _ => q
  | Event.pluginStatusCb q => q
  | Event.removalManagerStatusCb m => m.plugin

/-- Whether an event is a progress-callback invocation (as opposed to a
backend `remove()` attempt). -/
def Event.isCallback {P : Type} : Event P → Bool
  | Event.removeCall _ _ => false
  | Event.pluginStatusCb _ => true
  | Event.removalManagerStatusCb _ => true

/-- The two caller-supplied progress hooks of `remove_plugins`, modelled as
state transformers over an arbitrary callback state `σ` (any callback that
returns normally is an instance; its side effects are the state). -/
structure Callbacks (P σ : Type) where
  plugin_status_cb : σ → P → σ
  removal_manager_status_cb : σ → PluginLocationRemoveManager P → σ

/-- The no-op default callbacks (`noop` in the source). -/
def noopCallbacks (P : Type) : Callbacks P Unit where
  plugin_status_cb := fun s _ => s
  removal_manager_status_cb := fun s _ => s

/-- The behaviour of the four backend managers' `remove()` methods:
per plugin and backend kind, either a raised fault or the resulting
`plugin_removed` flag. -/
def RemoveEnv (P ε : Type) : Type := P → ManagerKind → Except ε Bool

/-- Whether an `Except` value is a normal return. -/
def exceptOk {ε α : Type} : Except ε α → Bool
  | Except.ok _ => true
  | Except.error _ => false

/-- The `plugin_removed` flag of a normal return (`false` as a dummy on a
fault; only used under a no-fault hypothesis). -/
def okVal {ε : Type} : Except ε Bool → Bool
  | Except.ok b => b
  | Except.error _ => false

/-- The loop inside `remove_plugin`: call `remove()` on the manager of each
kind in `ks`, in order.  Returns the list of managers carrying their final
`plugin_removed` flags (or the propagated fault) together with the trace of
`remove()` invocations; on a fault the remaining managers are not invoked. -/
def callManagers {P ε : Type} (env : RemoveEnv P ε) (p : P) :
    List ManagerKind →
      Except ε (List (PluginLocationRemoveManager P)) × List (Event P)
  | [] => (Except.ok [], [])
  | k :: ks =>
    match env p k with
    | Except.error e => (Except.error e, [Event.removeCall p k])
    | Except.ok b =>
      let r := callManagers env p ks
      (r.1.map (fun ms => ⟨k, p, b⟩ :: ms), Event.removeCall p k :: r.2)

/-- `PluginRemoveService.remove_plugin`: construct the four managers in the
fixed backend order and invoke `remove()` on each, returning the tuple of
managers (as an ordered list) and the trace. -/
def remove_plugin {P ε : Type} (env : RemoveEnv P ε) (p : P) :
    Except ε (List (PluginLocationRemoveManager P)) × List (Event P) :=
  callManagers env p managerOrder

/-- The inner loop of `remove_plugins` over one plugin's managers:
`any_not_removed = not manager.plugin_removed or any_not_removed`, then
`removal_manager_status_cb(manager)`.  Returns the final flag, the final
callback state, and the trace of callback invocations. -/
def statusLoop {P σ : Type} (cb : Callbacks P σ) :
    σ → Bool → List (PluginLocationRemoveManager P) →
      Bool × σ × List (Event P)
  | s, a, [] => (a, s, [])
  | s, a, m :: ms =>
    let a1 := (!m.plugin_removed) || a
    let s1 := cb.removal_manager_status_cb s m
    let r := statusLoop cb s1 a1 ms
    (r.1, r.2.1, Event.removalManagerStatusCb m :: r.2.2)

/-- The loop of `remove_plugins` over the plugin sequence, threading the
running `removed_plugins` counter and the callback state.  A fault raised
by a manager's `remove()` propagates immediately: no counter is returned,
and the remaining plugins are never processed. -/
def removeLoop {P ε σ : Type} (env : RemoveEnv P ε) (cb : Callbacks P σ) :
    List P → Int → σ → Except ε Int × List (Event P) × σ
  | [], removed, s => (Except.ok removed, [], s)
  | p :: ps, removed, s =>
    let s1 := cb.plugin_status_cb s p
    let r := remove_plugin env p
    match r.1 with
    | Except.error e => (Except.error e, Event.pluginStatusCb p :: r.2, s1)
    | Except.ok managers =>
      let q := statusLoop cb s1 false managers
      let removed1 := if q.1 then removed - 1 else removed
      let rest := removeLoop env cb ps removed1 q.2.1
      (rest.1, Event.pluginStatusCb p :: (r.2 ++ (q.2.2 ++ rest.2.1)), rest.2.2)

/-- `PluginRemoveService.remove_plugins`: `num_plugins = len(plugins)`,
`removed_plugins` starts at `num_plugins`, the loop runs over the plugins,
and `(removed_plugins, num_plugins)` is returned (unless a fault
propagates).  The result carries the counter pair (or fault), the full
event trace, and the final callback state. -/
def remove_plugins {P ε σ : Type} (env : RemoveEnv P ε) (plugins : List P)
    (cb : Callbacks P σ) (s0 : σ) :
    Except ε (Int × Int) × List (Event P) × σ :=
  let num_plugins : Int := plugins.length
  let r := removeLoop env cb plugins num_plugins s0
  (r.1.map (fun removed => (removed, num_plugins)), r.2.1, r.2.2)

/-- No manager raises for plugin `p`: every backend's `remove()` returns
normally. -/
def FaultFree {P ε : Type} (env : RemoveEnv P ε) (p : P) : Prop :=
  ∀ k : ManagerKind, exceptOk (env p k) = true

/-- All four backends report `plugin_removed = true` for `p`. -/
def allRemovedB {P ε : Type} (env : RemoveEnv P ε) (p : P) : Bool :=
  managerOrder.all (fun k => okVal (env p k))

/-- The managers returned for a fault-free plugin, in backend order. -/
def okManagers {P ε : Type} (env : RemoveEnv P ε) (p : P) :
    List (PluginLocationRemoveManager P) :=
  managerOrder.map (fun k => ⟨k, p, okVal (env p k)⟩)

/-- The event block emitted for one fault-free plugin: its status callback,
then the four `remove()` calls in backend order, then the four
manager-status callbacks in backend order. -/
def okPluginTrace {P ε : Type} (env : RemoveEnv P ε) (p : P) :
    List (Event P) :=
  Event.pluginStatusCb p ::
    (managerOrder.map (Event.removeCall p) ++
      (okManagers env p).map Event.removalManagerStatusCb)

/-- The subtrace of events concerning plugin `p`. -/
def eventsAbout {P : Type} [DecidableEq P] (p : P) (tr : List (Event P)) :
    List (Event P) :=
  tr.filter (fun e => decide (e.pluginOf = p))

/-- The subtrace of callback invocations concerning plugin `p`. -/
def callbacksAbout {P : Type} [DecidableEq P] (p : P)
    (tr : List (Event P)) : List (Event P) :=
  (eventsAbout p tr).filter Event.isCallback

instance : Fintype ManagerKind where
  elems :=
    ⟨[ManagerKind.db, ManagerKind.meltanoYml, ManagerKind.installation,
        ManagerKind.lockedDefinition], by decide⟩
  complete := by intro k; cases k <;> decide

instance faultFreeDecidable {P ε : Type} [DecidableEq ε] [DecidableEq P]
    (env : RemoveEnv P ε) (p : P) : Decidable (FaultFree env p) :=
  inferInstanceAs (Decidable (∀ k : ManagerKind, exceptOk (env p k) = true))

/-! ## Concrete instances used by the witnesses -/

/-- All backends remove successfully for every plugin. -/
def envAllOk : RemoveEnv Nat Unit := fun _ _ => Except.ok true

/-- Plugin 1's installed-file manager reports `plugin_removed = false`;
everything else is removed. -/
def envOneFalse : RemoveEnv Nat Unit := fun p k =>
  if p = 1 ∧ k = ManagerKind.installation then Except.ok false
  else Except.ok true

/-- Plugin 1's manifest, installed-file and lock-file managers all report
`plugin_removed = false`; everything else is removed. -/
def envThreeFalse : RemoveEnv Nat Unit := fun p k =>
  if p = 1 ∧ k ≠ ManagerKind.db then Except.ok false
  else Except.ok true

/-- Plugin 0's installed-file manager raises; everything else is removed. -/
def envFault : RemoveEnv Nat Unit := fun p k =>
  if p = 0 ∧ k = ManagerKind.installation then Except.error ()
  else Except.ok true


example :
    (remove_plugins (fun _ _ => (Except.ok true : Except Unit Bool))
      [0, 1, 2] (noopCallbacks Nat) ()).1 = Except.ok (3, 3) := by decide

example :
    (remove_plugins
      (fun p k =>
        if p = 1 ∧ k = ManagerKind.installation then (Except.ok false : Except Unit Bool)
        else Except.ok true)
      [0, 1, 2] (noopCallbacks Nat) ()).1 = Except.ok (2, 3) := by decide

example :
    (remove_plugins (fun _ _ => (Except.ok true : Except Unit Bool))
      ([] : List Nat) (noopCallbacks Nat) ()).1 = Except.ok (0, 0) := by decide

example : allRemovedB envOneFalse 1 = false := by decide
example : allRemovedB envThreeFalse 1 = false := by decide
example : (∀ p ∈ [0, 1, 2], FaultFree envOneFalse p) := by decide

/-! ## Helper lemmas -/

theorem exceptOk_eq {ε : Type} (x : Except ε Bool) (h : exceptOk x = true) :
    x = Except.ok (okVal x) := by
  cases x with
  | ok b => rfl
  | error e => simp [exceptOk] at h

theorem statusLoop_eq {P σ : Type} (cb : Callbacks P σ) (s : σ) (a : Bool)
    (ms : List (PluginLocationRemoveManager P)) :
    statusLoop cb s a ms =
      (ms.foldl (fun acc m => (!m.plugin_removed) || acc) a,
        ms.foldl cb.removal_manager_status_cb s,
        ms.map Event.removalManagerStatusCb) := by
  induction ms generalizing s a with
  | nil => rfl
  | cons m ms ih => simp [statusLoop, ih]

theorem foldl_or_any {α : Type} (f : α → Bool) (l : List α) (a : Bool) :
    l.foldl (fun acc x => f x || acc) a = (l.any f || a) := by
  induction l generalizing a with
  | nil => simp
  | cons x l ih =>
    simp only [List.foldl_cons, List.any_cons, ih]
    cases f x <;> cases a <;> simp

theorem countP_add_countP_not {α : Type} (p : α → Bool) (l : List α) :
    l.countP p + l.countP (fun a => !p a) = l.length := by
  induction l with
  | nil => simp
  | cons x l ih => cases hx : p x <;> simp [List.countP_cons, hx] <;> omega

theorem callManagers_ok {P ε : Type} (env : RemoveEnv P ε) (p : P)
    (ks : List ManagerKind) (h : ∀ k ∈ ks, exceptOk (env p k) = true) :
    callManagers env p ks =
      (Except.ok (ks.map (fun k => ⟨k, p, okVal (env p k)⟩)),
        ks.map (Event.removeCall p)) := by
  induction ks with
  | nil => rfl
  | cons k ks ih =>
    cases henv : env p k with
    | error e =>
      have hko := h k (by simp)
      rw [henv] at hko
      simp [exceptOk] at hko
    | ok b =>
      have hrest := ih (fun k1 hk1 => h k1 (by simp [hk1]))
      simp [callManagers, henv, hrest, okVal, Except.map]

theorem remove_plugin_ok {P ε : Type} (env : RemoveEnv P ε) (p : P)
    (h : FaultFree env p) :
    remove_plugin env p =
      (Except.ok (okManagers env p), managerOrder.map (Event.removeCall p)) := by
  rw [remove_plugin, callManagers_ok env p managerOrder (fun k _ => h k)]
  rfl

theorem callManagers_error {P ε : Type} (env : RemoveEnv P ε) (p : P)
    (ks1 : List ManagerKind) (k : ManagerKind) (ks2 : List ManagerKind)
    (e : ε) (h1 : ∀ k1 ∈ ks1, exceptOk (env p k1) = true)
    (hk : env p k = Except.error e) :
    callManagers env p (ks1 ++ k :: ks2) =
      (Except.error e,
        ks1.map (Event.removeCall p) ++ [Event.removeCall p k]) := by
  induction ks1 with
  | nil => simp [callManagers, hk]
  | cons k1 ks1 ih =>
    cases henv : env p k1 with
    | error e1 =>
      have hko := h1 k1 (by simp)
      rw [henv] at hko
      simp [exceptOk] at hko
    | ok b =>
      have hrest := ih (fun k2 hk2 => h1 k2 (by simp [hk2]))
      simp [callManagers, henv, hrest, Except.map]

theorem any_not_okManagers {P ε : Type} (env : RemoveEnv P ε) (p : P) :
    (okManagers env p).foldl (fun acc m => (!m.plugin_removed) || acc) false
      = !allRemovedB env p := by
  rw [foldl_or_any]
  simp only [okManagers, allRemovedB, managerOrder, List.map_cons, List.map_nil,
    List.any_cons, List.any_nil, List.all_cons, List.all_nil]
  cases okVal (env p ManagerKind.db) <;>
    cases okVal (env p ManagerKind.meltanoYml) <;>
      cases okVal (env p ManagerKind.installation) <;>
        cases okVal (env p ManagerKind.lockedDefinition) <;> rfl

theorem removeLoop_ok {P ε σ : Type} (env : RemoveEnv P ε) (cb : Callbacks P σ)
    (ps : List P) (removed : Int) (s : σ)
    (h : ∀ p ∈ ps, FaultFree env p) :
    (removeLoop env cb ps removed s).1 =
      Except.ok (removed - (ps.countP (fun p => !allRemovedB env p) : Int)) ∧
    (removeLoop env cb ps removed s).2.1 = ps.flatMap (okPluginTrace env) := by
  induction ps generalizing removed s with
  | nil => simp [removeLoop]
  | cons p ps ih =>
    have hp := h p (List.mem_cons_self p ps)
    have htail : ∀ q ∈ ps, FaultFree env q :=
      fun q hq => h q (List.mem_cons_of_mem p hq)
    have hrp := remove_plugin_ok env p hp
    constructor
    · simp only [removeLoop, hrp, statusLoop_eq, any_not_okManagers]
      rw [(ih _ _ htail).1]
      cases hb : allRemovedB env p <;> simp [List.countP_cons, hb]
      omega
    · simp only [removeLoop, hrp, statusLoop_eq, any_not_okManagers]
      rw [(ih _ _ htail).2]
      simp [okPluginTrace, List.append_assoc]

theorem removeLoop_bounds {P ε σ : Type} (env : RemoveEnv P ε)
    (cb : Callbacks P σ) (ps : List P) (removed : Int) (s : σ) (r : Int)
    (h : (removeLoop env cb ps removed s).1 = Except.ok r) :
    removed - ps.length ≤ r ∧ r ≤ removed := by
  induction ps generalizing removed s with
  | nil =>
    simp [removeLoop] at h
    omega
  | cons p ps ih =>
    cases hrp : (remove_plugin env p).1 with
    | error e => simp [removeLoop, hrp] at h
    | ok managers =>
      simp only [removeLoop, hrp] at h
      cases hq : (statusLoop cb (cb.plugin_status_cb s p) false managers).1 with
      | false =>
        simp only [hq, if_neg Bool.false_ne_true] at h
        have := ih _ _ h
        push_cast [List.length_cons]
        omega
      | true =>
        simp only [hq, if_pos rfl] at h
        have := ih _ _ h
        push_cast [List.length_cons]
        omega

theorem remove_plugin_error {P ε : Type} (env : RemoveEnv P ε) (p : P)
    (ks1 : List ManagerKind) (k : ManagerKind) (ks2 : List ManagerKind)
    (e : ε) (hsplit : managerOrder = ks1 ++ k :: ks2)
    (h1 : ∀ k1 ∈ ks1, exceptOk (env p k1) = true)
    (hk : env p k = Except.error e) :
    remove_plugin env p =
      (Except.error e,
        ks1.map (Event.removeCall p) ++ [Event.removeCall p k]) := by
  rw [remove_plugin, hsplit, callManagers_error env p ks1 k ks2 e h1 hk]

theorem removeLoop_fault {P ε σ : Type} (env : RemoveEnv P ε)
    (cb : Callbacks P σ) (pre : List P) (p : P) (post : List P)
    (removed : Int) (s : σ) (e : ε) (tr : List (Event P))
    (hpre : ∀ q ∈ pre, FaultFree env q)
    (hp : remove_plugin env p = (Except.error e, tr)) :
    (removeLoop env cb (pre ++ p :: post) removed s).1 = Except.error e ∧
    (removeLoop env cb (pre ++ p :: post) removed s).2.1 =
      pre.flatMap (okPluginTrace env) ++ Event.pluginStatusCb p :: tr := by
  induction pre generalizing removed s with
  | nil => simp [removeLoop, hp]
  | cons q pre ih =>
    have hq := hpre q (List.mem_cons_self q pre)
    have htail : ∀ q1 ∈ pre, FaultFree env q1 :=
      fun q1 h1 => hpre q1 (List.mem_cons_of_mem q h1)
    have hrq := remove_plugin_ok env q hq
    constructor
    · simp only [List.cons_append, removeLoop, hrq, statusLoop_eq,
        List.append_eq]
      exact (ih _ _ htail).1
    · simp only [List.cons_append, removeLoop, hrq, statusLoop_eq,
        List.append_eq]
      rw [(ih _ _ htail).2]
      simp [okPluginTrace, List.append_assoc]

theorem eventsAbout_append {P : Type} [DecidableEq P] (p : P)
    (a b : List (Event P)) :
    eventsAbout p (a ++ b) = eventsAbout p a ++ eventsAbout p b := by
  simp [eventsAbout]

theorem eventsAbout_okPluginTrace_self {P ε : Type} [DecidableEq P]
    (env : RemoveEnv P ε) (q : P) :
    eventsAbout q (okPluginTrace env q) = okPluginTrace env q := by
  simp [eventsAbout, okPluginTrace, okManagers, managerOrder,
    Event.pluginOf, List.filter_cons]

theorem eventsAbout_okPluginTrace_ne {P ε : Type} [DecidableEq P]
    (env : RemoveEnv P ε) (p q : P) (h : q ≠ p) :
    eventsAbout p (okPluginTrace env q) = [] := by
  simp [eventsAbout, okPluginTrace, okManagers, managerOrder,
    Event.pluginOf, List.filter_cons, h]

theorem eventsAbout_flatMap_not_mem {P ε : Type} [DecidableEq P]
    (env : RemoveEnv P ε) (p : P) (l : List P) (h : p ∉ l) :
    eventsAbout p (l.flatMap (okPluginTrace env)) = [] := by
  induction l with
  | nil => rfl
  | cons q l ih =>
    rw [List.flatMap_cons, eventsAbout_append,
      eventsAbout_okPluginTrace_ne env p q (fun hq => h (hq ▸ List.mem_cons_self q l)),
      ih (fun hm => h (List.mem_cons_of_mem q hm))]
    rfl

theorem eventsAbout_flatMap {P ε : Type} [DecidableEq P]
    (env : RemoveEnv P ε) (p : P) (l : List P)
    (hmem : p ∈ l) (hnd : l.Nodup) :
    eventsAbout p (l.flatMap (okPluginTrace env)) = okPluginTrace env p := by
  induction l with
  | nil => cases hmem
  | cons q l ih =>
    rw [List.flatMap_cons, eventsAbout_append]
    by_cases hq : q = p
    · subst hq
      rw [eventsAbout_okPluginTrace_self,
        eventsAbout_flatMap_not_mem env q l (List.Nodup.not_mem hnd)]
      simp
    · rw [eventsAbout_okPluginTrace_ne env p q hq,
        ih ((List.mem_cons.mp hmem).resolve_left (fun hpq => hq hpq.symm))
          (List.Nodup.of_cons hnd)]
      rfl

theorem remove_plugins_fst_error {P ε σ : Type} (env : RemoveEnv P ε)
    (cb : Callbacks P σ) (plugins : List P) (s0 : σ) (e : ε)
    (h : (removeLoop env cb plugins (plugins.length : Int) s0).1 =
      Except.error e) :
    (remove_plugins env plugins cb s0).1 = Except.error e := by
  simp [remove_plugins, h, Except.map]

theorem remove_plugins_trace_eq {P ε σ : Type} (env : RemoveEnv P ε)
    (cb : Callbacks P σ) (plugins : List P) (s0 : σ) :
    (remove_plugins env plugins cb s0).2.1 =
      (removeLoop env cb plugins (plugins.length : Int) s0).2.1 := rfl

theorem remove_plugins_trace {P ε σ : Type} (env : RemoveEnv P ε)
    (plugins : List P) (cb : Callbacks P σ) (s0 : σ)
    (h : ∀ q ∈ plugins, FaultFree env q) :
    (remove_plugins env plugins cb s0).2.1 =
      plugins.flatMap (okPluginTrace env) := by
  have := (removeLoop_ok env cb plugins (plugins.length : Int) s0 h).2
  simpa [remove_plugins] using this

theorem eventsAbout_remove_plugins {P ε σ : Type} [DecidableEq P]
    (env : RemoveEnv P ε) (plugins : List P) (cb : Callbacks P σ) (s0 : σ)
    (p : P) (h : ∀ q ∈ plugins, FaultFree env q) (hnd : plugins.Nodup)
    (hmem : p ∈ plugins) :
    eventsAbout p (remove_plugins env plugins cb s0).2.1 =
      okPluginTrace env p := by
  rw [remove_plugins_trace env plugins cb s0 h,
    eventsAbout_flatMap env p plugins hmem hnd]

theorem okPluginTrace_explicit {P ε : Type} (env : RemoveEnv P ε) (p : P) :
    okPluginTrace env p =
      [Event.pluginStatusCb p,
        Event.removeCall p ManagerKind.db,
        Event.removeCall p ManagerKind.meltanoYml,
        Event.removeCall p ManagerKind.installation,
        Event.removeCall p ManagerKind.lockedDefinition,
        Event.removalManagerStatusCb
          ⟨ManagerKind.db, p, okVal (env p ManagerKind.db)⟩,
        Event.removalManagerStatusCb
          ⟨ManagerKind.meltanoYml, p, okVal (env p ManagerKind.meltanoYml)⟩,
        Event.removalManagerStatusCb
          ⟨ManagerKind.installation, p, okVal (env p ManagerKind.installation)⟩,
        Event.removalManagerStatusCb
          ⟨ManagerKind.lockedDefinition, p,
            okVal (env p ManagerKind.lockedDefinition)⟩] := rfl

/-! ## Claims -/

/-- C1: for every plugin sequence on which no `remove()` raises,
`remove_plugins` returns `(removedCount, attemptedCount)` where
`attemptedCount` is the length of the input sequence and `removedCount` is
the number of plugins for which all four removal managers report
`plugin_removed = true`. -/
theorem remove_plugins_counts_spec {P ε σ : Type} (env : RemoveEnv P ε)
    (plugins : List P) (cb : Callbacks P σ) (s0 : σ)
    (h : ∀ p ∈ plugins, FaultFree env p) :
    (remove_plugins env plugins cb s0).1 =
      Except.ok
        (((plugins.countP (fun p => allRemovedB env p) : Nat) : Int),
          ((plugins.length : Nat) : Int)) := by
  have hc := (removeLoop_ok env cb plugins (plugins.length : Int) s0 h).1
  have hsum := countP_add_countP_not (fun p => allRemovedB env p) plugins
  simp only [remove_plugins, hc, Except.map]
  refine congrArg Except.ok ?_
  refine Prod.ext ?_ rfl
  simp only
  omega

theorem remove_plugins_counts_spec_witness :
    (∀ p ∈ [0, 1, 2], FaultFree envOneFalse p) ∧
    (remove_plugins envOneFalse [0, 1, 2] (noopCallbacks Nat) ()).1 =
      Except.ok
        ((([0, 1, 2].countP (fun p => allRemovedB envOneFalse p) : Nat) : Int),
          (([0, 1, 2].length : Nat) : Int)) :=
  ⟨by decide,
    remove_plugins_counts_spec envOneFalse [0, 1, 2] (noopCallbacks Nat) ()
      (by decide)⟩

/-- C2: whenever `remove_plugins` returns a pair
`(removedCount, attemptedCount)` normally, it satisfies
`0 ≤ removedCount ≤ attemptedCount`. -/
theorem remove_plugins_counts_bounds {P ε σ : Type} (env : RemoveEnv P ε)
    (plugins : List P) (cb : Callbacks P σ) (s0 : σ) (removed attempted : Int)
    (h : (remove_plugins env plugins cb s0).1 =
      Except.ok (removed, attempted)) :
    0 ≤ removed ∧ removed ≤ attempted := by
  rcases hr : (removeLoop env cb plugins (plugins.length : Int) s0).1 with e | r
  · rw [remove_plugins] at h
    simp [hr, Except.map] at h
  · rw [remove_plugins] at h
    simp only [hr, Except.map] at h
    have hb := removeLoop_bounds env cb plugins (plugins.length : Int) s0 r hr
    have h1 : r = removed ∧ ((plugins.length : Nat) : Int) = attempted := by
      constructor
      · exact congrArg Prod.fst (Except.ok.inj h)
      · exact congrArg Prod.snd (Except.ok.inj h)
    obtain ⟨hx, hy⟩ := h1
    subst hx
    subst hy
    omega

theorem remove_plugins_counts_bounds_witness :
    ((remove_plugins envOneFalse [0, 1, 2] (noopCallbacks Nat) ()).1 =
      Except.ok (2, 3)) ∧
    ((0 : Int) ≤ 2 ∧ (2 : Int) ≤ 3) :=
  ⟨by decide,
    remove_plugins_counts_bounds envOneFalse [0, 1, 2] (noopCallbacks Nat) ()
      2 3 (by decide)⟩

/-- C3: for every plugin whose four `remove()` calls return normally,
`remove_plugin` constructs exactly four removal managers and invokes
`remove()` on each in the fixed order — database record, manifest entry,
installed files, locked definition — and the returned tuple preserves that
backend order (the trace component lists the `remove()` invocations in
emission order). -/
theorem remove_plugin_backend_order {P ε : Type} (env : RemoveEnv P ε)
    (p : P) (h : FaultFree env p) :
    remove_plugin env p =
      (Except.ok
        [⟨ManagerKind.db, p, okVal (env p ManagerKind.db)⟩,
          ⟨ManagerKind.meltanoYml, p, okVal (env p ManagerKind.meltanoYml)⟩,
          ⟨ManagerKind.installation, p, okVal (env p ManagerKind.installation)⟩,
          ⟨ManagerKind.lockedDefinition, p,
            okVal (env p ManagerKind.lockedDefinition)⟩],
        [Event.removeCall p ManagerKind.db,
          Event.removeCall p ManagerKind.meltanoYml,
          Event.removeCall p ManagerKind.installation,
          Event.removeCall p ManagerKind.lockedDefinition]) := by
  rw [remove_plugin_ok env p h]
  rfl

theorem remove_plugin_backend_order_witness :
    FaultFree envAllOk 7 ∧
    remove_plugin envAllOk 7 =
      (Except.ok
        [⟨ManagerKind.db, 7, okVal (envAllOk 7 ManagerKind.db)⟩,
          ⟨ManagerKind.meltanoYml, 7, okVal (envAllOk 7 ManagerKind.meltanoYml)⟩,
          ⟨ManagerKind.installation, 7,
            okVal (envAllOk 7 ManagerKind.installation)⟩,
          ⟨ManagerKind.lockedDefinition, 7,
            okVal (envAllOk 7 ManagerKind.lockedDefinition)⟩],
        [Event.removeCall 7 ManagerKind.db,
          Event.removeCall 7 ManagerKind.meltanoYml,
          Event.removeCall 7 ManagerKind.installation,
          Event.removeCall 7 ManagerKind.lockedDefinition]) :=
  ⟨by decide, remove_plugin_backend_order envAllOk 7 (by decide)⟩

/-- C4: if a removal manager's `remove()` raises while processing plugin
`p` of a batch `pre ++ p :: post`, the fault propagates out of both
`remove_plugin` and `remove_plugins`: no pair is returned, the remaining
managers for `p` are not invoked (the trace ends with the faulting
`remove()` call), the plugins in `post` are never attempted (no event of
theirs appears), and the effects already made for the plugins in `pre`
remain in the trace. -/
theorem remove_plugins_fault_propagation {P ε σ : Type} (env : RemoveEnv P ε)
    (cb : Callbacks P σ) (pre : List P) (p : P) (post : List P) (s0 : σ)
    (ks1 : List ManagerKind) (k : ManagerKind) (ks2 : List ManagerKind)
    (e : ε) (hpre : ∀ q ∈ pre, FaultFree env q)
    (hsplit : managerOrder = ks1 ++ k :: ks2)
    (hks1 : ∀ k1 ∈ ks1, exceptOk (env p k1) = true)
    (hk : env p k = Except.error e) :
    (remove_plugin env p).1 = Except.error e ∧
    (remove_plugins env (pre ++ p :: post) cb s0).1 = Except.error e ∧
    (remove_plugins env (pre ++ p :: post) cb s0).2.1 =
      pre.flatMap (okPluginTrace env) ++
        Event.pluginStatusCb p ::
          (ks1.map (Event.removeCall p) ++ [Event.removeCall p k]) := by
  have hrp := remove_plugin_error env p ks1 k ks2 e hsplit hks1 hk
  have hl := removeLoop_fault env cb pre p post
    (((pre ++ p :: post).length : Nat) : Int) s0 e
    (ks1.map (Event.removeCall p) ++ [Event.removeCall p k]) hpre hrp
  refine ⟨by rw [hrp], ?_, ?_⟩
  · exact remove_plugins_fst_error env cb (pre ++ p :: post) s0 e hl.1
  · rw [remove_plugins_trace_eq]
    exact hl.2

theorem remove_plugins_fault_propagation_witness :
    (∀ q ∈ [1], FaultFree envFault q) ∧
    (managerOrder =
      [ManagerKind.db, ManagerKind.meltanoYml] ++
        ManagerKind.installation :: [ManagerKind.lockedDefinition]) ∧
    (∀ k1 ∈ [ManagerKind.db, ManagerKind.meltanoYml],
      exceptOk (envFault 0 k1) = true) ∧
    (envFault 0 ManagerKind.installation = Except.error ()) ∧
    ((remove_plugin envFault 0).1 = Except.error () ∧
      (remove_plugins envFault ([1] ++ 0 :: [2]) (noopCallbacks Nat) ()).1 =
        Except.error () ∧
      (remove_plugins envFault ([1] ++ 0 :: [2]) (noopCallbacks Nat) ()).2.1 =
        [1].flatMap (okPluginTrace envFault) ++
          Event.pluginStatusCb 0 ::
            ([ManagerKind.db, ManagerKind.meltanoYml].map
                (Event.removeCall 0) ++
              [Event.removeCall 0 ManagerKind.installation])) :=
  ⟨by decide, by decide, by decide, by decide,
    remove_plugins_fault_propagation envFault (noopCallbacks Nat) [1] 0 [2]
      () [ManagerKind.db, ManagerKind.meltanoYml] ManagerKind.installation
      [ManagerKind.lockedDefinition] () (by decide) (by decide) (by decide)
      (by decide)⟩

/-- C5: in a fault-free batch over distinct plugins, the callback
invocations concerning a given plugin `p` are exactly one
`plugin_status_cb(p)` followed by four `removal_manager_status_cb` calls,
one per manager, in backend order — so `plugin_status_cb` runs exactly
once per plugin, before any of that plugin's manager-status callbacks. -/
theorem remove_plugins_callback_protocol {P ε σ : Type} [DecidableEq P]
    (env : RemoveEnv P ε) (plugins : List P) (cb : Callbacks P σ) (s0 : σ)
    (p : P) (h : ∀ q ∈ plugins, FaultFree env q) (hnd : plugins.Nodup)
    (hmem : p ∈ plugins) :
    callbacksAbout p (remove_plugins env plugins cb s0).2.1 =
      Event.pluginStatusCb p ::
        (okManagers env p).map Event.removalManagerStatusCb := by
  rw [callbacksAbout,
    eventsAbout_remove_plugins env plugins cb s0 p h hnd hmem]
  rfl

theorem remove_plugins_callback_protocol_witness :
    (∀ q ∈ [0, 1], FaultFree envOneFalse q) ∧ [0, 1].Nodup ∧ 1 ∈ [0, 1] ∧
    callbacksAbout 1 (remove_plugins envOneFalse [0, 1]
        (noopCallbacks Nat) ()).2.1 =
      Event.pluginStatusCb 1 ::
        (okManagers envOneFalse 1).map Event.removalManagerStatusCb :=
  ⟨by decide, by decide, by decide,
    remove_plugins_callback_protocol envOneFalse [0, 1] (noopCallbacks Nat)
      () 1 (by decide) (by decide) (by decide)⟩

/-- C6: the returned counter pair of `remove_plugins` is independent of
the choice of callbacks: for any two callback pairs that return normally
(modelled as arbitrary state transformers, the no-op defaults included)
and any initial callback states, the first component of the result — the
`(removedCount, attemptedCount)` pair or the propagated fault — is the
same. -/
theorem remove_plugins_callback_independence {P ε σ1 σ2 : Type}
    (env : RemoveEnv P ε) (plugins : List P) (cb1 : Callbacks P σ1)
    (cb2 : Callbacks P σ2) (s1 : σ1) (s2 : σ2) :
    (remove_plugins env plugins cb1 s1).1 =
      (remove_plugins env plugins cb2 s2).1 := by
  have key : ∀ (removed : Int) (t1 : σ1) (t2 : σ2),
      (removeLoop env cb1 plugins removed t1).1 =
        (removeLoop env cb2 plugins removed t2).1 := by
    induction plugins with
    | nil => intro removed t1 t2; rfl
    | cons p ps ih =>
      intro removed t1 t2
      cases hrp : (remove_plugin env p).1 with
      | error e => simp [removeLoop, hrp]
      | ok managers =>
        simp only [removeLoop, hrp, statusLoop_eq]
        exact ih _ _ _
  simp only [remove_plugins]
  rw [key (plugins.length : Int) s1 s2]

/-- C7: in a fault-free batch over distinct plugins, for every plugin `p`
the subtrace of events concerning `p` starts with a progress callback
(`plugin_status_cb(p)`, before any of `p`'s backend work), ends with a
progress callback (a manager-status callback, after all of `p`'s backend
work), and every backend `remove()` attempt of `p` is followed later in
that subtrace by a progress-callback invocation. -/
theorem remove_plugins_progress_callbacks {P ε σ : Type} [DecidableEq P]
    (env : RemoveEnv P ε) (plugins : List P) (cb : Callbacks P σ) (s0 : σ)
    (p : P) (h : ∀ q ∈ plugins, FaultFree env q) (hnd : plugins.Nodup)
    (hmem : p ∈ plugins) :
    (eventsAbout p (remove_plugins env plugins cb s0).2.1).head? =
        some (Event.pluginStatusCb p) ∧
    (∃ ev, (eventsAbout p (remove_plugins env plugins cb s0).2.1).getLast? =
        some ev ∧ ev.isCallback = true) ∧
    (∀ i k,
      (eventsAbout p (remove_plugins env plugins cb s0).2.1).get? i =
          some (Event.removeCall p k) →
      ∃ j, i < j ∧ ∃ ev,
        (eventsAbout p (remove_plugins env plugins cb s0).2.1).get? j =
            some ev ∧ ev.isCallback = true) := by
  rw [eventsAbout_remove_plugins env plugins cb s0 p h hnd hmem,
    okPluginTrace_explicit]
  refine ⟨rfl, ⟨_, rfl, rfl⟩, ?_⟩
  intro i k hi
  rcases Nat.lt_or_ge i 5 with h5 | h5
  · exact ⟨5, by omega, _, rfl, rfl⟩
  · exfalso
    have h9 : i < 9 := by
      by_contra hc
      push_neg at hc
      rw [List.get?_eq_none.mpr (by simpa using hc)] at hi
      cases hi
    interval_cases i <;> simp at hi

theorem remove_plugins_progress_callbacks_witness :
    (∀ q ∈ [0, 1], FaultFree envOneFalse q) ∧ [0, 1].Nodup ∧ 0 ∈ [0, 1] ∧
    ((eventsAbout 0 (remove_plugins envOneFalse [0, 1]
          (noopCallbacks Nat) ()).2.1).head? =
        some (Event.pluginStatusCb 0) ∧
      (∃ ev, (eventsAbout 0 (remove_plugins envOneFalse [0, 1]
          (noopCallbacks Nat) ()).2.1).getLast? =
          some ev ∧ ev.isCallback = true) ∧
      (∀ i k,
        (eventsAbout 0 (remove_plugins envOneFalse [0, 1]
            (noopCallbacks Nat) ()).2.1).get? i =
            some (Event.removeCall 0 k) →
        ∃ j, i < j ∧ ∃ ev,
          (eventsAbout 0 (remove_plugins envOneFalse [0, 1]
              (noopCallbacks Nat) ()).2.1).get? j =
              some ev ∧ ev.isCallback = true)) :=
  ⟨by decide, by decide, by decide,
    remove_plugins_progress_callbacks envOneFalse [0, 1] (noopCallbacks Nat)
      () 0 (by decide) (by decide) (by decide)⟩

/-- C8: on the empty plugin sequence `remove_plugins` returns the pair
`(0, 0)`, emits no event whatsoever (so no callback is invoked and no
removal manager is constructed or run), and leaves the callback state
untouched. -/
theorem remove_plugins_empty {P ε σ : Type} (env : RemoveEnv P ε)
    (cb : Callbacks P σ) (s0 : σ) :
    remove_plugins env ([] : List P) cb s0 =
      (Except.ok ((0 : Int), (0 : Int)), ([] : List (Event P)), s0) := by
  simp [remove_plugins, removeLoop, Except.map]

theorem countP_congr_mem {α : Type} (l : List α) (f g : α → Bool)
    (h : ∀ a ∈ l, f a = g a) : l.countP f = l.countP g := by
  induction l with
  | nil => rfl
  | cons x l ih =>
    rw [List.countP_cons, List.countP_cons, h x (List.mem_cons_self x l),
      ih (fun a ha => h a (List.mem_cons_of_mem x ha))]

/-- C9 (implicit): `removed_plugins` is decremented at most once per
plugin, however many of that plugin's four managers report
`plugin_removed = false`: in a fault-free batch the returned result
depends only on each plugin's all-four-removed bit, so an environment in
which a plugin has two, three or four false outcomes yields exactly the
same pair as one in which it has a single false outcome. -/
theorem remove_plugins_decrement_once {P ε σ : Type}
    (env1 env2 : RemoveEnv P ε) (plugins : List P) (cb : Callbacks P σ)
    (s0 : σ) (h1 : ∀ p ∈ plugins, FaultFree env1 p)
    (h2 : ∀ p ∈ plugins, FaultFree env2 p)
    (hagree : ∀ p ∈ plugins, allRemovedB env1 p = allRemovedB env2 p) :
    (remove_plugins env1 plugins cb s0).1 =
      (remove_plugins env2 plugins cb s0).1 := by
  have c1 := (removeLoop_ok env1 cb plugins (plugins.length : Int) s0 h1).1
  have c2 := (removeLoop_ok env2 cb plugins (plugins.length : Int) s0 h2).1
  have hcnt : plugins.countP (fun p => !allRemovedB env1 p) =
      plugins.countP (fun p => !allRemovedB env2 p) :=
    countP_congr_mem plugins _ _ (fun a ha => by rw [hagree a ha])
  simp only [remove_plugins, c1, c2, Except.map, hcnt]

theorem remove_plugins_decrement_once_witness :
    (∀ p ∈ [0, 1, 2], FaultFree envOneFalse p) ∧
    (∀ p ∈ [0, 1, 2], FaultFree envThreeFalse p) ∧
    (∀ p ∈ [0, 1, 2], allRemovedB envOneFalse p = allRemovedB envThreeFalse p) ∧
    (remove_plugins envOneFalse [0, 1, 2] (noopCallbacks Nat) ()).1 =
      (remove_plugins envThreeFalse [0, 1, 2] (noopCallbacks Nat) ()).1 :=
  ⟨by decide, by decide, by decide,
    remove_plugins_decrement_once envOneFalse envThreeFalse [0, 1, 2]
      (noopCallbacks Nat) () (by decide) (by decide) (by decide)⟩

/-- C10 (implicit): in a fault-free batch over distinct plugins, every
`removal_manager_status_cb` invocation for a plugin `p` occurs strictly
after all of `p`'s `remove()` attempts in the subtrace of events
concerning `p` — the manager-status callback is never interleaved between
two `remove()` calls of the same plugin. -/
theorem remove_plugins_status_after_attempts {P ε σ : Type} [DecidableEq P]
    (env : RemoveEnv P ε) (plugins : List P) (cb : Callbacks P σ) (s0 : σ)
    (p : P) (h : ∀ q ∈ plugins, FaultFree env q) (hnd : plugins.Nodup)
    (hmem : p ∈ plugins) :
    ∀ i j k m,
      (eventsAbout p (remove_plugins env plugins cb s0).2.1).get? i =
          some (Event.removeCall p k) →
      (eventsAbout p (remove_plugins env plugins cb s0).2.1).get? j =
          some (Event.removalManagerStatusCb m) →
      i < j := by
  rw [eventsAbout_remove_plugins env plugins cb s0 p h hnd hmem,
    okPluginTrace_explicit]
  intro i j k m hi hj
  have hi5 : i < 5 := by
    by_contra hc
    push_neg at hc
    have h9 : i < 9 := by
      by_contra hc2
      push_neg at hc2
      rw [List.get?_eq_none.mpr (by simpa using hc2)] at hi
      cases hi
    interval_cases i <;> simp at hi
  have hj5 : 5 ≤ j := by
    by_contra hc
    push_neg at hc
    interval_cases j <;> simp at hj
  omega

theorem remove_plugins_status_after_attempts_witness :
    (∀ q ∈ [0, 1], FaultFree envOneFalse q) ∧ [0, 1].Nodup ∧ 0 ∈ [0, 1] ∧
    (∀ i j k m,
      (eventsAbout 0 (remove_plugins envOneFalse [0, 1]
          (noopCallbacks Nat) ()).2.1).get? i =
          some (Event.removeCall 0 k) →
      (eventsAbout 0 (remove_plugins envOneFalse [0, 1]
          (noopCallbacks Nat) ()).2.1).get? j =
          some (Event.removalManagerStatusCb m) →
      i < j) :=
  ⟨by decide, by decide, by decide,
    remove_plugins_status_after_attempts envOneFalse [0, 1]
      (noopCallbacks Nat) () 0 (by decide) (by decide) (by decide)⟩
